import Mathlib

/-!
Verification of the nanocoap CoAP codec (src/nanocoap/nanocoap.c).

The C source is shallowly embedded over `List Nat` byte buffers:

* a byte buffer is a `List Nat` of values `< 256`; out-of-range reads use
  `List.getD _ _ 0` (reading the terminating NUL of a C string, or past a
  buffer end where the C code would exhibit undefined behaviour, yields `0`);
* machine integers are `Nat` with explicit `% 2^w` at the points where the C
  code truncates (uint8 casts, uint16 accumulators);
* pointers into a buffer are `Nat` indexes; a nullable pointer is `Option Nat`;
* functions that mutate a caller struct in C take the struct and return the
  updated one; a C `int` return code is an `Int` (`0` success, `-74` = `-EBADMSG`);
* loops are embedded as fuel-indexed structural recursions; the fuel chosen at
  each entry point strictly exceeds the maximal possible number of iterations
  (each iteration advances the cursor by at least one byte), so the fuel-
  exhaustion branch is unreachable and the definitions stay kernel-computable.

Constants from nanocoap.h (not part of src/) are modelled from the spec where
noted.
-/

/-- Read a byte of a buffer; out-of-range positions read as 0. -/
def byteAt (l : List Nat) (i : Nat) : Nat := l.getD i 0

/-- Modelled from the spec: option number of URI-Path is 11 (nanocoap.h is not in src/). -/
def COAP_OPT_URI_PATH : Nat := 11

/-- Modelled from the spec: option number of Content-Format is 12 (nanocoap.h is not in src/). -/
def COAP_OPT_CONTENT_FORMAT : Nat := 12

/-- Modelled from the spec: option number of Observe is 6 (nanocoap.h is not in src/). -/
def COAP_OPT_OBSERVE : Nat := 6

/-- Modelled from the spec: option number of Block2 is 23 (nanocoap.h is not in src/). -/
def COAP_OPT_BLOCK2 : Nat := 23

/-- Modelled from the spec: SZX is the low 3 bits of a Block2 value (nanocoap.h is not in src/). -/
def COAP_BLOCKWISE_SZX_MASK : Nat := 7

/-- Modelled from the spec: NUM occupies the Block2 value bits above bit 3 (nanocoap.h is not in src/). -/
def COAP_BLOCKWISE_NUM_OFF : Nat := 4

/-- Modelled from the spec: MORE is bit 3 of a Block2 value (nanocoap.h is not in src/). -/
def COAP_BLOCKWISE_MORE_OFF : Nat := 3

/-- `static int _decode_value(unsigned val, uint8_t **pkt_pos_ptr, uint8_t *pkt_end)`.
Returns `some (value, bytes_consumed)`, or `none` for the two C error returns
(`-ENOSPC` on a truncated extension, `-EBADMSG` on the reserved nibble 15).
The 14-case reads a 16-bit big-endian extension (`ntohs`) and adds 269; the
result is a C `int`, so no 16-bit truncation happens on the sum. -/
def _decode_value (val : Nat) (buf : List Nat) (pos : Nat) : Option (Nat × Nat) :=
  let left := buf.length - pos
  if val = 13 then
    if left < 1 then none else some (byteAt buf pos + 13, 1)
  else if val = 14 then
    if left < 2 then none else some (byteAt buf pos * 256 + byteAt buf (pos + 1) + 269, 2)
  else if val = 15 then none
  else some (val, 0)

/-- `static uint32_t _decode_uint(uint8_t *pkt_pos, unsigned nbytes)`:
big-endian decode of `nbytes` bytes at `pos` (the memcpy into the top of a
zeroed uint32 followed by `ntohl`). -/
def _decode_uint (buf : List Nat) (pos nbytes : Nat) : Nat :=
  (List.range nbytes).foldl (fun acc i => acc * 256 + byteAt buf (pos + i)) 0

/-- `static unsigned _put_odelta(uint8_t *buf, unsigned lastonum, unsigned onum, unsigned olen)`.
Returns the written bytes.  `delta = onum - lastonum` (callers guarantee
`lastonum <= onum`).  Note the C branches: nibble-13 extension only for
`delta == 13`; every `delta > 13` uses the nibble-14 path, where
`uint16_t tmp = delta - 269` truncates modulo 2^16 (written here as
`(delta + 65536 - 269) % 65536`, equal for every `delta < 2^16`). The
`(uint8_t)` cast of the first byte is the `% 256`. -/
def _put_odelta (lastonum onum olen : Nat) : List Nat :=
  let delta := onum - lastonum
  if delta < 13 then
    [((delta <<< 4) ||| olen) % 256]
  else if delta = 13 then
    [((13 <<< 4) ||| olen) % 256, (delta - 13) % 256]
  else
    let tmp := (delta + 65536 - 269) % 65536
    [((14 <<< 4) ||| olen) % 256, tmp / 256, tmp % 256]

/-- `size_t coap_put_option(uint8_t *buf, uint16_t lastonum, uint16_t onum, uint8_t *odata, size_t olen)`:
writes the delta/length header then the value bytes. -/
def coap_put_option (lastonum onum : Nat) (odata : List Nat) : List Nat :=
  _put_odelta lastonum onum odata.length ++ odata

/-- Modelled from the spec: the blockwise cursor struct `coap_blockwise_t`
(declared in nanocoap.h, not in src/).  Per the spec the three fields are
offsets into the logical (unbounded) response body, so they are plain `Nat`. -/
structure coap_blockwise_t where
  start_pos : Nat
  end_pos : Nat
  cur_pos : Nat
deriving Repr, DecidableEq

/-- `size_t coap_blockwise_put_char(coap_blockwise_t *blk, uint8_t *bufpos, char c)`:
copies the char iff the cursor is inside the window, always advances the
cursor.  The returned list is the bytes written at `bufpos` (length 1 or 0,
the C return value). -/
def coap_blockwise_put_char (blk : coap_blockwise_t) (c : Nat) :
    coap_blockwise_t × List Nat :=
  if blk.start_pos ≤ blk.cur_pos ∧ blk.cur_pos < blk.end_pos then
    ({ blk with cur_pos := blk.cur_pos + 1 }, [c])
  else
    ({ blk with cur_pos := blk.cur_pos + 1 }, [])

/-- `size_t coap_blockwise_put_string(coap_blockwise_t *blk, uint8_t *bufpos, const char *c, size_t len)`:
copies the sub-range of the string that overlaps the window, always advances
the cursor by the full length.  The returned list is the bytes memcpy'd to
`bufpos` (its length is the C return value `str_len`). -/
def coap_blockwise_put_string (blk : coap_blockwise_t) (c : List Nat) :
    coap_blockwise_t × List Nat :=
  let len := c.length
  let str_offset := if blk.start_pos > blk.cur_pos then blk.start_pos - blk.cur_pos else 0
  if str_offset > len then
    ({ blk with cur_pos := blk.cur_pos + len }, [])
  else if blk.cur_pos ≥ blk.end_pos then
    ({ blk with cur_pos := blk.cur_pos + len }, [])
  else
    let str_len :=
      if blk.cur_pos + len ≥ blk.end_pos then blk.end_pos - blk.cur_pos - str_offset
      else len - str_offset
    ({ blk with cur_pos := blk.cur_pos + len }, (c.drop str_offset).take str_len)

/-- One step of a body generator: a `coap_blockwise_put_char` call or a
`coap_blockwise_put_string` call. -/
inductive BodyItem where
  | chr (c : Nat)
  | str (s : List Nat)
deriving Repr, DecidableEq

/-- The logical bytes an item stands for. -/
def BodyItem.bytes : BodyItem → List Nat
  | .chr c => [c]
  | .str s => s

/-- Run a sequence of put calls against a cursor, concatenating the emitted
output (each C call writes at `bufpos` and the caller advances `bufpos` by the
returned count, so consecutive outputs concatenate in the output buffer). -/
def coap_blockwise_run (blk : coap_blockwise_t) : List BodyItem → coap_blockwise_t × List Nat
  | [] => (blk, [])
  | .chr c :: is =>
    let p := coap_blockwise_put_char blk c
    let q := coap_blockwise_run p.1 is
    (q.1, p.2 ++ q.2)
  | .str s :: is =>
    let p := coap_blockwise_put_string blk s
    let q := coap_blockwise_run p.1 is
    (q.1, p.2 ++ q.2)

/-- The full logical body generated by a sequence of put calls. -/
def bodyBytes (items : List BodyItem) : List Nat := (items.map BodyItem.bytes).flatten

/-- The slice of a byte sequence starting at absolute position `c` that falls
in the window `[s, e)` (natural-number subtraction). -/
def winSlice (s e c : Nat) (l : List Nat) : List Nat :=
  (l.drop (s - c)).take ((e - c) - (s - c))

/-- The option view `coap_opt_t` filled in by `_parse_opt` (nanocoap.h struct;
`val` is the index of the first value byte). -/
structure coap_opt_t where
  delta : Nat
  len : Nat
  val : Nat
deriving Repr, DecidableEq

/-- `static size_t _decode_optlen(uint8_t *buf, uint16_t *val)`: extends a raw
nibble in place, returning `(bytes_consumed, new_value)`.  `*val` is a
`uint16_t`: the 13-case `*val += *buf` cannot exceed 268, the 14-case
`htons(..) + 269` truncates modulo 2^16. -/
def _decode_optlen (buf : List Nat) (pos v : Nat) : Nat × Nat :=
  if v = 13 then (1, v + byteAt buf pos)
  else if v = 14 then (2, (byteAt buf pos * 256 + byteAt buf (pos + 1) + 269) % 65536)
  else (0, v)

/-- `static int _parse_opt(uint8_t *optpos, coap_opt_t *opt)`: decodes one
option header at `pos`; `none` is the C `-1` (reserved nibble 15 in either
field), otherwise `some (opt, res)` where `res = (opt->val - optpos) + opt->len`
is the total distance to the next option. -/
def _parse_opt (buf : List Nat) (pos : Nat) : Option (coap_opt_t × Nat) :=
  let delta0 := (byteAt buf pos &&& 0xf0) >>> 4
  let len0 := byteAt buf pos &&& 0x0f
  if delta0 = 15 ∨ len0 = 15 then none
  else
    let d := _decode_optlen buf (pos + 1) delta0
    let l := _decode_optlen buf (pos + 1 + d.1) len0
    let valpos := pos + 1 + d.1 + l.1
    some (⟨d.2, l.2, valpos⟩, (valpos - pos) + l.2)

/-- The do-while loop of `coap_find_option`.  `delta` is the running absolute
option number, a `uint16_t` accumulator (`% 65536`).  Fuel-indexed: each
iteration advances `bufpos` by `res ≥ 1` and requires `bufpos < payload_pos`,
so `payload_pos + 1` fuel at the entry point can never run out. -/
def coap_find_loop (buf : List Nat) (payload_pos optnum : Nat) :
    Nat → Nat → Nat → Option (Nat × coap_opt_t)
  | 0, _, _ => none
  | fuel + 1, bufpos, delta =>
    if bufpos ≥ payload_pos then none
    else
      match _parse_opt buf bufpos with
      | none => none
      | some (opt, res) =>
        let bufpos2 := bufpos + res
        let delta2 := (delta + opt.delta) % 65536
        if delta2 < optnum then coap_find_loop buf payload_pos optnum fuel bufpos2 delta2
        else if delta2 = optnum then some (bufpos2, opt)
        else none

/-- `uint8_t *coap_find_option(uint8_t *payload_pos, uint8_t *bufpos, coap_opt_t *opt, uint16_t optnum)`:
`none` models the NULL return; `some (r, opt)` models the returned pointer
(index just past the matched option) together with the filled `*opt`. -/
def coap_find_option (buf : List Nat) (payload_pos : Nat) (options_pos : Option Nat)
    (optnum : Nat) : Option (Nat × coap_opt_t) :=
  match options_pos with
  | none => none
  | some bufpos =>
    if byteAt buf bufpos = 0xff then none
    else coap_find_loop buf payload_pos optnum (payload_pos + 1) bufpos 0

/-- `void coap_blockwise_init(coap_pkt_t *pkt, coap_blockwise_t *blk)`.
`szx_max` is `COAP_BLOCKWISE_SZX_MAX`, the configured maximum size exponent
(modelled from the spec as a parameter; nanocoap.h is not in src/).
`payload_pos`/`options_pos` stand for `pkt->payload` / `pkt->options`. -/
def coap_blockwise_init (szx_max : Nat) (buf : List Nat) (payload_pos : Nat)
    (options_pos : Option Nat) : coap_blockwise_t :=
  let found := coap_find_option buf payload_pos options_pos COAP_OPT_BLOCK2
  let blk2_num :=
    match found with
    | some (_, opt) => _decode_uint buf opt.val opt.len >>> COAP_BLOCKWISE_NUM_OFF
    | none => 0
  let blk2_size0 :=
    match found with
    | some (_, opt) => (_decode_uint buf opt.val opt.len &&& COAP_BLOCKWISE_SZX_MASK) + 4
    | none => szx_max
  let blk2_size := if szx_max > blk2_size0 then blk2_size0 else szx_max
  { start_pos := (blk2_num * 1) <<< blk2_size
    end_pos := (blk2_num * 1) <<< blk2_size + (1 <<< blk2_size)
    cur_pos := 0 }

/-- `void coap_finish_option_block2(coap_blockwise_t *blk, uint8_t *options_pos, uint8_t *body_pos)`:
re-locates the Block2 option and ORs the MORE bit into the last value byte if
`cur_pos >= end_pos`.  Returns the (possibly patched) buffer.  The C index
`opt.val[opt.len-1]` assumes `opt.len >= 1` (Block2 options written by
`coap_put_option_block2` always have 1-3 value bytes). -/
def coap_finish_option_block2 (blk : coap_blockwise_t) (buf : List Nat)
    (options_pos : Option Nat) (body_pos : Nat) : List Nat :=
  match coap_find_option buf body_pos options_pos COAP_OPT_BLOCK2 with
  | none => buf
  | some (_, opt) =>
    if blk.cur_pos ≥ blk.end_pos then
      buf.set (opt.val + opt.len - 1)
        (byteAt buf (opt.val + opt.len - 1) ||| (1 <<< COAP_BLOCKWISE_MORE_OFF))
    else buf

/-- The parsed-packet view `coap_pkt_t` (nanocoap.h struct, fields as used by
nanocoap.c).  `hdr_pos`, `token`, `options` model the pointers into the input
buffer (`Option` = nullable); `url` models the `pkt->url` accumulator (the
NANOCOAP_URL_MAX zero padding of the C array is not represented);
`payload` is the payload start index.  `coap_parse` receives the caller's
struct and returns the updated one, exactly like the C out-parameter: fields
the parser never writes keep their pre-call values. -/
structure coap_pkt_t where
  hdr_pos : Option Nat
  token : Option Nat
  options : Option Nat
  payload : Nat
  payload_len : Nat
  url : List Nat
  content_type : Nat
  observe_value : Nat
deriving Repr, DecidableEq

/-- Modelled from the spec: `coap_get_token_len` (nanocoap.h, not in src/)
returns the TKL field, the low 4 bits of the first header byte. -/
def coap_get_token_len (buf : List Nat) : Nat := byteAt buf 0 &&& 0xf

/-- The option-parsing while loop of `coap_parse` (nanocoap.c lines 55-124).
Returns `(return_code, pkt, pkt_pos)`; a non-zero code is an early
`return -EBADMSG` (the final position is then irrelevant, C returns from the
whole function).  Fuel-indexed: every iteration advances `pos` by at least the
option byte, so `buf.length + 1` fuel at the entry point cannot run out.
The C loop condition `pkt_pos != pkt_end` is modelled as `pos < buf.length`:
the two differ only after the cursor overshoots the end, where the C code
reads out of bounds (undefined behaviour). -/
def coap_parse_loop (buf : List Nat) : Nat → Nat → Nat → coap_pkt_t → Int × coap_pkt_t × Nat
  | 0, pos, _, pkt => (0, pkt, pos)
  | fuel + 1, pos, option_nr, pkt =>
    if pos < buf.length then
      let option_byte := byteAt buf pos
      if option_byte = 0xff then
        (0, { pkt with payload := pos + 1, payload_len := buf.length - (pos + 1) }, pos + 1)
      else
        match _decode_value (option_byte >>> 4) buf (pos + 1) with
        | none => (-74, pkt, pos + 1)
        | some (option_delta, c1) =>
          match _decode_value (option_byte &&& 0xf) buf (pos + 1 + c1) with
          | none => (-74, pkt, pos + 1 + c1)
          | some (option_len, c2) =>
            let vpos := pos + 1 + c1 + c2
            let option_nr2 := option_nr + option_delta
            if option_nr2 = COAP_OPT_URI_PATH then
              coap_parse_loop buf fuel (vpos + option_len) option_nr2
                { pkt with url := pkt.url ++ 47 :: (buf.drop vpos).take option_len }
            else if option_nr2 = COAP_OPT_CONTENT_FORMAT then
              let pkt2 :=
                if option_len = 0 then { pkt with content_type := 0 }
                else if option_len = 1 then { pkt with content_type := byteAt buf vpos }
                else if option_len = 2 then
                  { pkt with content_type := byteAt buf vpos * 256 + byteAt buf (vpos + 1) }
                else pkt
              coap_parse_loop buf fuel (vpos + option_len) option_nr2 pkt2
            else if option_nr2 = COAP_OPT_OBSERVE then
              if option_len < 4 then
                coap_parse_loop buf fuel (vpos + option_len) option_nr2
                  { pkt with observe_value := _decode_uint buf vpos option_len }
              else (-74, pkt, vpos)
            else if option_nr2 = COAP_OPT_BLOCK2 then
              if option_len < 4 then
                if (_decode_uint buf vpos option_len &&& COAP_BLOCKWISE_SZX_MASK) + 4 > 10 then
                  (-74, pkt, vpos)
                else coap_parse_loop buf fuel (vpos + option_len) option_nr2 pkt
              else (-74, pkt, vpos)
            else
              if option_nr2 % 2 = 1 then (-74, pkt, vpos)
              else coap_parse_loop buf fuel (vpos + option_len) option_nr2 pkt
    else (0, pkt, pos)

/-- The field initialisation `coap_parse` performs before its option loop
(nanocoap.c lines 33-53): `hdr`, the url/payload_len/observe_value resets of
lines 40-42, the token pointer, and the options pointer.  Note that
`content_type` is NOT initialised anywhere in `coap_parse`. -/
def coap_parse_init (pkt : coap_pkt_t) (buf : List Nat) : coap_pkt_t :=
  let pkt := { pkt with hdr_pos := some 0 }
  let pkt := { pkt with url := [], payload_len := 0, observe_value := 4294967295 }
  let tkl := coap_get_token_len buf
  let pkt := if tkl ≠ 0 then { pkt with token := some 4 } else { pkt with token := none }
  let pos := 4 + tkl
  { pkt with options := if pos ≠ buf.length then some pos else none }

/-- `int coap_parse(coap_pkt_t *pkt, uint8_t *buf, size_t len)` (nanocoap.c
lines 31-139): field initialisation (`coap_parse_init`), option loop, then the
post-loop payload fix-up (lines 129-131). -/
def coap_parse (pkt : coap_pkt_t) (buf : List Nat) : Int × coap_pkt_t :=
  match coap_parse_loop buf (buf.length + 1) (4 + coap_get_token_len buf) 0
      (coap_parse_init pkt buf) with
  | (ret, pkt2, endpos) =>
    if ret = 0 then
      (0, if endpos = buf.length then { pkt2 with payload := buf.length } else pkt2)
    else (ret, pkt2)

/-- The sequence of absolute option numbers the `coap_parse` loop walks over,
mirroring `coap_parse_loop` step for step (same decode calls, same cursor
advancement); the walk stops at buffer end, payload marker or a header that
fails to decode. -/
def coap_option_numbers_from (buf : List Nat) : Nat → Nat → Nat → List Nat
  | 0, _, _ => []
  | fuel + 1, pos, option_nr =>
    if pos < buf.length then
      let option_byte := byteAt buf pos
      if option_byte = 0xff then []
      else
        match _decode_value (option_byte >>> 4) buf (pos + 1) with
        | none => []
        | some (option_delta, c1) =>
          match _decode_value (option_byte &&& 0xf) buf (pos + 1 + c1) with
          | none => []
          | some (option_len, c2) =>
            let vpos := pos + 1 + c1 + c2
            let option_nr2 := option_nr + option_delta
            option_nr2 :: coap_option_numbers_from buf fuel (vpos + option_len) option_nr2
    else []

/-- The absolute option numbers of a message, walked exactly as `coap_parse`
does (same start position and fuel). -/
def coap_option_numbers (buf : List Nat) : List Nat :=
  coap_option_numbers_from buf (buf.length + 1) (4 + coap_get_token_len buf) 0

/-- The inner scan of `coap_put_option_uri`:
`while (uri_len--) { if (*uripos == separator || *uripos == carriage-zero) break; uripos++; }`.
Arguments are the remaining budget `uri_len` and the cursor index; returns the
cursor (index of the break character) and remaining budget after the loop.
Reading `byteAt uri pos` at `pos = uri.length` yields 0, the terminating NUL
of the C string.  The budget-0 case models loop exit; in C `uri_len--` would
wrap to SIZE_MAX there, but for a NUL-terminated input the NUL always breaks
the loop while the budget is still positive, so that state is unreachable. -/
def _uri_inner (sep : Nat) (uri : List Nat) : Nat → Nat → Nat × Nat
  | 0, pos => (pos, 0)
  | budget + 1, pos =>
    if byteAt uri pos = sep ∨ byteAt uri pos = 0 then (pos, budget)
    else _uri_inner sep uri budget (pos + 1)

/-- The outer while loop of `coap_put_option_uri` (nanocoap.c lines 370-388),
recording one `(lastonum, part)` pair per emitted `coap_put_option` call.
Arguments after `uri`: fuel, `uri_len` budget, cursor index, `lastonum`.
Each iteration strictly decreases the budget, so `uri.length + 1` fuel at the
entry point cannot run out. -/
def coap_put_option_uri_loop (sep optnum : Nat) (uri : List Nat) :
    Nat → Nat → Nat → Nat → List (Nat × List Nat)
  | 0, _, _, _ => []
  | _fuel + 1, 0, _, _ => []
  | fuel + 1, budget + 1, pos, lastonum =>
    let pos1 := pos + 1
    let r := _uri_inner sep uri (budget + 1) pos1
    let part := (uri.drop pos1).take (r.1 - pos1)
    if part.length ≠ 0 then
      (lastonum, part) :: coap_put_option_uri_loop sep optnum uri fuel r.2 r.1 optnum
    else
      coap_put_option_uri_loop sep optnum uri fuel r.2 r.1 lastonum

/-- The `(lastonum, segment)` pairs `coap_put_option_uri` passes to
`coap_put_option`, in order.  The `uri_len == 0` early return is the first
guard; `uri` models the NUL-terminated C string as its list of (non-zero)
bytes, so `strlen(uri) = uri.length`. -/
def coap_put_option_uri_calls (sep optnum : Nat) (uri : List Nat) (lastonum : Nat) :
    List (Nat × List Nat) :=
  if uri.length = 0 then []
  else coap_put_option_uri_loop sep optnum uri (uri.length + 1) uri.length 0 lastonum

/-- `size_t coap_put_option_uri(uint8_t *buf, uint16_t lastonum, const char *uri, uint16_t optnum)`:
the bytes written to `buf`.  The separator is derived from the option number
exactly as in C (47 is the slash, 38 the ampersand). -/
def coap_put_option_uri (lastonum : Nat) (uri : List Nat) (optnum : Nat) : List Nat :=
  let sep := if optnum = COAP_OPT_URI_PATH then 47 else 38
  ((coap_put_option_uri_calls sep optnum uri lastonum).map
    (fun c => coap_put_option c.1 optnum c.2)).flatten

/-- Specification-side definition, following the words of the spec: split the
input on the separator into its segments and keep the non-empty ones. -/
def uri_segments (sep : Nat) (l : List Nat) : List (List Nat) :=
  match l with
  | [] => []
  | a :: as =>
    if a = sep then uri_segments sep as
    else (a :: as.takeWhile (fun c => c ≠ sep)) :: uri_segments sep (as.dropWhile (fun c => c ≠ sep))
termination_by l.length
decreasing_by
  · simp
  · have h : ∀ (l : List Nat), (List.dropWhile (fun c => decide (c ≠ sep)) l).length ≤ l.length := by
      intro l
      induction l with
      | nil => simp [List.dropWhile]
      | cons x xs ih =>
        rw [List.dropWhile_cons]
        split
        · simp only [List.length_cons]
          omega
        · simp
    have := h as
    simp only [List.length_cons]
    omega

/-- A fixed struct value used as the pre-call state of `coap_parse` in
witnesses (all fields deliberately non-default so that what the parser leaves
untouched is visible). -/
def demo_pkt : coap_pkt_t :=
  { hdr_pos := none, token := none, options := none, payload := 0,
    payload_len := 0, url := [], content_type := 45, observe_value := 7 }

/-- Like `demo_pkt` but with `content_type = 0`, used where a counterexample
must show a value derived from the message itself. -/
def demo_pkt0 : coap_pkt_t := { demo_pkt with content_type := 0 }

/-- C1 (code bug): the delta/length header encoding does NOT round-trip.
For `lastonum = 0`, `onum = 14` (delta 14), value length 0, `_put_odelta`
takes its `else` branch (it uses the 13-extension only for delta exactly 13)
and emits the 16-bit extension `(14 - 269) mod 2^16 = 65281`; decoding the
delta field back with `_decode_value`, as `coap_parse` does, yields
`65281 + 269 = 65550`, not the original delta 14. -/
theorem c1_put_odelta_decode_value_roundtrip_fails :
    coap_put_option 0 14 [] = [224, 255, 1] ∧
    _decode_value (byteAt (coap_put_option 0 14 []) 0 >>> 4) (coap_put_option 0 14 []) 1 =
      some (65550, 2) ∧
    (65550 : Nat) ≠ 14 := by
  refine ⟨by decide, by decide, by decide⟩

/-- The window slice of a concatenation splits at the cursor position. -/
theorem winSlice_append (s e c : Nat) (l1 l2 : List Nat) :
    winSlice s e c (l1 ++ l2) = winSlice s e c l1 ++ winSlice s e (c + l1.length) l2 := by
  simp only [winSlice]
  rw [List.drop_append_eq_append_drop, List.take_append_eq_append_take, List.length_drop]
  congr 1
  have h1 : s - c - l1.length = s - (c + l1.length) := by rw [Nat.sub_sub]
  have h2 : (e - c - (s - c)) - (l1.length - (s - c)) =
      (e - (c + l1.length)) - (s - (c + l1.length)) := by omega
  rw [h1, h2]

/-- `coap_blockwise_put_char` emits exactly the window slice of its byte. -/
theorem coap_blockwise_put_char_eq (s e cu c : Nat) :
    coap_blockwise_put_char ⟨s, e, cu⟩ c = (⟨s, e, cu + 1⟩, winSlice s e cu [c]) := by
  simp only [coap_blockwise_put_char, winSlice]
  by_cases h1 : s ≤ cu ∧ cu < e
  · rw [if_pos h1]
    have h2 : s - cu = 0 := by omega
    rw [h2, Nat.sub_zero, List.drop_zero,
      List.take_of_length_le (by simp only [List.length_cons, List.length_nil]; omega)]
  · rw [if_neg h1]
    rcases Nat.lt_or_ge cu s with hlt | hge
    · rw [List.drop_eq_nil_of_le (by simp; omega)]
      simp
    · have h3 : e - cu - (s - cu) = 0 := by omega
      rw [h3]
      simp

/-- `coap_blockwise_put_string` emits exactly the window slice of its bytes. -/
theorem coap_blockwise_put_string_eq (s e cu : Nat) (l : List Nat) :
    coap_blockwise_put_string ⟨s, e, cu⟩ l = (⟨s, e, cu + l.length⟩, winSlice s e cu l) := by
  simp only [coap_blockwise_put_string, winSlice]
  have hoff : (if s > cu then s - cu else 0) = s - cu := by split <;> omega
  rw [hoff]
  by_cases h1 : s - cu > l.length
  · rw [if_pos h1, List.drop_eq_nil_of_le (by omega)]
    simp
  · rw [if_neg h1]
    by_cases h2 : cu ≥ e
    · rw [if_pos h2]
      have h3 : e - cu - (s - cu) = 0 := by omega
      rw [h3]
      simp
    · rw [if_neg h2]
      by_cases h4 : cu + l.length ≥ e
      · rw [if_pos h4]
      · rw [if_neg h4]
        rw [List.take_of_length_le (by simp only [List.length_drop]; omega),
          List.take_of_length_le (by simp only [List.length_drop]; omega)]

/-- A whole run of put calls emits exactly the window slice of the body. -/
theorem coap_blockwise_run_eq (items : List BodyItem) : ∀ s e cu : Nat,
    coap_blockwise_run ⟨s, e, cu⟩ items =
      (⟨s, e, cu + (bodyBytes items).length⟩, winSlice s e cu (bodyBytes items)) := by
  induction items with
  | nil =>
    intro s e cu
    simp [coap_blockwise_run, bodyBytes, winSlice]
  | cons i is ih =>
    intro s e cu
    cases i with
    | chr c =>
      simp only [coap_blockwise_run, coap_blockwise_put_char_eq, ih, bodyBytes,
        List.map_cons, List.flatten_cons, BodyItem.bytes]
      rw [winSlice_append]
      simp only [List.length_append, List.length_cons, List.length_nil, ← Nat.add_assoc]
    | str l =>
      simp only [coap_blockwise_run, coap_blockwise_put_string_eq, ih, bodyBytes,
        List.map_cons, List.flatten_cons, BodyItem.bytes]
      rw [winSlice_append]
      simp only [List.length_append, ← Nat.add_assoc]

/-- Concatenating successive aligned chunks of size `B` yields a prefix. -/
theorem range_chunks_take (B : Nat) (l : List Nat) : ∀ n : Nat,
    ((List.range n).map (fun k => (l.drop (k * B)).take B)).flatten = l.take (n * B) := by
  intro n
  induction n with
  | zero => simp
  | succ m ih =>
    rw [List.range_succ, List.map_append, List.flatten_append]
    simp only [List.map_cons, List.map_nil, List.flatten_cons, List.flatten_nil,
      List.append_nil]
    rw [ih, Nat.succ_mul, List.take_add]

/-- C2: a body emitted through `coap_blockwise_put_char` / `coap_blockwise_put_string`
with window `[0, L)` comes out unmodified, and for every block size `B`,
re-emitting the same body under the successive windows `[k*B, (k+1)*B)` and
concatenating the outputs reproduces the full body byte-for-byte. -/
theorem c2_blockwise_window_idempotence (items : List BodyItem) :
    (coap_blockwise_run ⟨0, (bodyBytes items).length, 0⟩ items).2 = bodyBytes items ∧
    ∀ B n : Nat, 0 < B → (bodyBytes items).length ≤ n * B →
      ((List.range n).map
        (fun k => (coap_blockwise_run ⟨k * B, (k + 1) * B, 0⟩ items).2)).flatten =
        bodyBytes items := by
  constructor
  · rw [coap_blockwise_run_eq]
    simp [winSlice]
  · intro B n _hB hn
    have he : ∀ k : Nat, (coap_blockwise_run ⟨k * B, (k + 1) * B, 0⟩ items).2 =
        ((bodyBytes items).drop (k * B)).take B := by
      intro k
      rw [coap_blockwise_run_eq]
      simp only [winSlice, Nat.sub_zero]
      rw [Nat.succ_mul, Nat.add_sub_cancel_left]
    simp only [he]
    rw [range_chunks_take, List.take_of_length_le hn]

/-- Witness for C2 at a concrete body and block size. -/
theorem c2_blockwise_window_idempotence_witness :
    (coap_blockwise_run ⟨0, 6, 0⟩
        [BodyItem.str [1, 2, 3], BodyItem.chr 4, BodyItem.str [5, 6]]).2 =
      [1, 2, 3, 4, 5, 6] ∧
    ((List.range 2).map
      (fun k => (coap_blockwise_run ⟨k * 4, (k + 1) * 4, 0⟩
        [BodyItem.str [1, 2, 3], BodyItem.chr 4, BodyItem.str [5, 6]]).2)).flatten =
      [1, 2, 3, 4, 5, 6] := by
  have h := c2_blockwise_window_idempotence
    [BodyItem.str [1, 2, 3], BodyItem.chr 4, BodyItem.str [5, 6]]
  exact ⟨h.1, h.2 4 2 (by decide) (by decide)⟩

/-- C3 (amended): `coap_finish_option_block2` sets the MORE bit of the located
Block2 option if and only if `cur_pos >= end_pos` (the C condition is `>=`,
not the strict `>` of the claim): for a body of length `L = cur_pos`, a window
ending at `end_pos <= L` yields MORE set and `end_pos > L` yields MORE clear.
Hypotheses: the Block2 option is found, has at least one value byte inside the
buffer, and was written with a provisional MORE = 0. -/
theorem c3_finish_block2_more_flag_geq
    (blk : coap_blockwise_t) (buf : List Nat) (options_pos : Option Nat) (body_pos : Nat)
    (r : Nat) (opt : coap_opt_t)
    (hfind : coap_find_option buf body_pos options_pos COAP_OPT_BLOCK2 = some (r, opt))
    (_hlen : 1 ≤ opt.len)
    (hin : opt.val + opt.len - 1 < buf.length)
    (hbit : Nat.testBit (byteAt buf (opt.val + opt.len - 1)) 3 = false) :
    Nat.testBit (byteAt (coap_finish_option_block2 blk buf options_pos body_pos)
      (opt.val + opt.len - 1)) 3 = true ↔ blk.end_pos ≤ blk.cur_pos := by
  simp only [coap_finish_option_block2, hfind]
  by_cases h : blk.cur_pos ≥ blk.end_pos
  · rw [if_pos h]
    constructor
    · intro _
      exact h
    · intro _
      show ((buf.set (opt.val + opt.len - 1) _).getD (opt.val + opt.len - 1) 0).testBit 3 = true
      rw [List.getD_eq_getElem _ _ (by simp [hin])]
      simp only [List.getElem_set_self]
      simp only [COAP_BLOCKWISE_MORE_OFF]
      simp [Nat.testBit_or]
      exact Or.inr (by decide)
  · rw [if_neg h]
    constructor
    · intro hcontra
      rw [hbit] at hcontra
      exact absurd hcontra (by simp)
    · intro hle
      exact absurd hle h

/-- Witness for C3 at a concrete buffer holding a Block2 option (bytes
`0xD1 0x0A 0x00`: delta 13+10 = 23, length 1, value 0) followed by the
payload marker, with `cur_pos = end_pos = 4`. -/
theorem c3_finish_block2_more_flag_geq_witness :
    Nat.testBit (byteAt (coap_finish_option_block2 ⟨0, 4, 4⟩ [209, 10, 0, 255]
      (some 0) 3) 2) 3 = true :=
  (c3_finish_block2_more_flag_geq ⟨0, 4, 4⟩ [209, 10, 0, 255] (some 0) 3 3
    ⟨23, 1, 2⟩ (by decide) (by decide) (by decide) (by decide)).mpr (by decide)

/-- C3 counterexample to the claim as stated: with `cur_pos = end_pos = 4`
(the body exactly fills the window, so the cursor did NOT strictly pass the
window end), the code still sets the MORE flag, because its condition is
`cur_pos >= end_pos`. -/
theorem c3_more_flag_counterexample :
    Nat.testBit (byteAt (coap_finish_option_block2 ⟨0, 4, 4⟩ [209, 10, 0, 255]
      (some 0) 3) 2) 3 = true ∧ ¬ ((4 : Nat) > 4) := by
  refine ⟨by decide, by decide⟩

/-- Every exit of the option loop carries return code 0 or -74 (`-EBADMSG`). -/
theorem coap_parse_loop_ret (buf : List Nat) : ∀ (fuel pos option_nr : Nat) (pkt : coap_pkt_t),
    (coap_parse_loop buf fuel pos option_nr pkt).1 = 0 ∨
    (coap_parse_loop buf fuel pos option_nr pkt).1 = -74 := by
  intro fuel
  induction fuel with
  | zero =>
    intro pos option_nr pkt
    left
    rfl
  | succ n ih =>
    intro pos option_nr pkt
    simp only [coap_parse_loop]
    repeat' split
    all_goals first
      | (left; rfl)
      | (right; rfl)
      | (exact ih _ _ _)

/-- C4 (amended): every failure of `coap_parse` is the single Malformed
return code `-EBADMSG`; success is 0.  (The packet struct itself, an in/out
parameter, may retain partially populated fields on failure — see the
counterexample.) -/
theorem c4_parse_single_malformed_outcome (pkt : coap_pkt_t) (buf : List Nat) :
    (coap_parse pkt buf).1 = 0 ∨ (coap_parse pkt buf).1 = -74 := by
  unfold coap_parse
  rcases h : coap_parse_loop buf (buf.length + 1) (4 + coap_get_token_len buf) 0
      (coap_parse_init pkt buf) with ⟨ret, pkt2, endpos⟩
  have hr := coap_parse_loop_ret buf (buf.length + 1) (4 + coap_get_token_len buf) 0
      (coap_parse_init pkt buf)
  rw [h] at hr
  dsimp only
  by_cases h0 : ret = 0
  · rw [if_pos h0]
    left
    rfl
  · rw [if_neg h0]
    rcases hr with h1 | h1
    · exact absurd h1 h0
    · right
      exact h1

/-- C4 counterexample to the claim as stated: on the message
`40 01 00 00 C1 2D 10` (header, then a 1-byte Content-Format option with
value 45, then the unknown critical option 13), `coap_parse` fails with
`-EBADMSG` but leaves `content_type = 45` in the caller's struct -- a field
holding data derived from the rejected message. -/
theorem c4_partial_population_counterexample :
    (coap_parse demo_pkt0 [64, 1, 0, 0, 193, 45, 16]).1 = -74 ∧
    (coap_parse demo_pkt0 [64, 1, 0, 0, 193, 45, 16]).2.content_type = 45 ∧
    demo_pkt0.content_type = 0 := by
  refine ⟨by decide, by decide, by decide⟩

/-- C5 (code bug): `coap_parse` contains no TKL validation.  The message
`49 01 00 00` followed by nine token bytes has TKL = 9 > 8, yet `coap_parse`
accepts it (returns 0) instead of rejecting it as malformed. -/
theorem c5_tkl9_accepted :
    coap_get_token_len [73, 1, 0, 0, 170, 170, 170, 170, 170, 170, 170, 170, 170] = 9 ∧
    8 < coap_get_token_len [73, 1, 0, 0, 170, 170, 170, 170, 170, 170, 170, 170, 170] ∧
    (coap_parse demo_pkt [73, 1, 0, 0, 170, 170, 170, 170, 170, 170, 170, 170, 170]).1 = 0 := by
  refine ⟨by decide, by decide, by decide⟩

/-- `coap_parse_init` never touches `content_type`. -/
theorem coap_parse_init_content_type (pkt : coap_pkt_t) (buf : List Nat) :
    (coap_parse_init pkt buf).content_type = pkt.content_type := by
  simp only [coap_parse_init]
  split <;> rfl

/-- `coap_parse_init` sets the observe sentinel (line 42, `UINT32_MAX`). -/
theorem coap_parse_init_observe (pkt : coap_pkt_t) (buf : List Nat) :
    (coap_parse_init pkt buf).observe_value = 4294967295 := by
  simp only [coap_parse_init]
  split <;> rfl

/-- If the option walk contains neither a Content-Format nor an Observe
number, the option loop leaves `content_type` and `observe_value` untouched. -/
theorem coap_parse_loop_preserve (buf : List Nat) :
    ∀ (fuel pos option_nr : Nat) (pkt : coap_pkt_t),
    COAP_OPT_CONTENT_FORMAT ∉ coap_option_numbers_from buf fuel pos option_nr →
    COAP_OPT_OBSERVE ∉ coap_option_numbers_from buf fuel pos option_nr →
    (coap_parse_loop buf fuel pos option_nr pkt).2.1.content_type = pkt.content_type ∧
    (coap_parse_loop buf fuel pos option_nr pkt).2.1.observe_value = pkt.observe_value := by
  intro fuel
  induction fuel with
  | zero =>
    intro pos option_nr pkt _ _
    exact ⟨rfl, rfl⟩
  | succ n ih =>
    intro pos option_nr pkt h12 h6
    by_cases hlt : pos < buf.length
    · by_cases hff : byteAt buf pos = 255
      · simp [coap_parse_loop, hlt, hff]
      · rcases hd1 : _decode_value (byteAt buf pos >>> 4) buf (pos + 1) with _ | ⟨d, c1⟩
        · simp [coap_parse_loop, hlt, hff, hd1]
        · rcases hd2 : _decode_value (byteAt buf pos &&& 0xf) buf (pos + 1 + c1) with _ | ⟨l, c2⟩
          · simp [coap_parse_loop, hlt, hff, hd1, hd2]
          · have hnum : coap_option_numbers_from buf (n + 1) pos option_nr =
                (option_nr + d) ::
                  coap_option_numbers_from buf n (pos + 1 + c1 + c2 + l) (option_nr + d) := by
              simp [coap_option_numbers_from, hlt, hff, hd1, hd2]
            rw [hnum] at h12 h6
            simp only [List.mem_cons, not_or] at h12 h6
            obtain ⟨h12a, h12b⟩ := h12
            obtain ⟨h6a, h6b⟩ := h6
            simp only [coap_parse_loop, if_pos hlt, hff, if_neg hff, hd1, hd2]
            by_cases h11 : option_nr + d = COAP_OPT_URI_PATH
            · rw [if_pos h11]
              simpa using ih _ _ _ h12b h6b
            · rw [if_neg h11]
              have h12c : ¬ (option_nr + d = COAP_OPT_CONTENT_FORMAT) := fun hh => h12a hh.symm
              have h6c : ¬ (option_nr + d = COAP_OPT_OBSERVE) := fun hh => h6a hh.symm
              rw [if_neg h12c, if_neg h6c]
              by_cases h23 : option_nr + d = COAP_OPT_BLOCK2
              · rw [if_pos h23]
                by_cases hl4 : l < 4
                · rw [if_pos hl4]
                  by_cases hsz :
                      (_decode_uint buf (pos + 1 + c1 + c2) l &&& COAP_BLOCKWISE_SZX_MASK) + 4 > 10
                  · rw [if_pos hsz]
                    exact ⟨rfl, rfl⟩
                  · rw [if_neg hsz]
                    exact ih _ _ _ h12b h6b
                · rw [if_neg hl4]
                  exact ⟨rfl, rfl⟩
              · rw [if_neg h23]
                by_cases hodd : (option_nr + d) % 2 = 1
                · rw [if_pos hodd]
                  exact ⟨rfl, rfl⟩
                · rw [if_neg hodd]
                  exact ih _ _ _ h12b h6b
    · simp [coap_parse_loop, hlt]

/-- C6 (amended): for a successfully parsed message containing no Observe
option the observe field equals the all-ones sentinel `UINT32_MAX`; but when
no Content-Format option is present the content-format field is NOT set to 0:
`coap_parse` never initialises it, so it retains the caller's pre-call value
(it equals 0 only if the caller zeroed it beforehand). -/
theorem c6_defaults_preserved (pkt : coap_pkt_t) (buf : List Nat)
    (hok : (coap_parse pkt buf).1 = 0)
    (h12 : COAP_OPT_CONTENT_FORMAT ∉ coap_option_numbers buf)
    (h6 : COAP_OPT_OBSERVE ∉ coap_option_numbers buf) :
    (coap_parse pkt buf).2.content_type = pkt.content_type ∧
    (coap_parse pkt buf).2.observe_value = 4294967295 := by
  unfold coap_option_numbers at h12 h6
  unfold coap_parse at hok ⊢
  rcases h : coap_parse_loop buf (buf.length + 1) (4 + coap_get_token_len buf) 0
      (coap_parse_init pkt buf) with ⟨ret, pkt2, endpos⟩
  have hp := coap_parse_loop_preserve buf (buf.length + 1) (4 + coap_get_token_len buf) 0
      (coap_parse_init pkt buf) h12 h6
  rw [h] at hp hok
  dsimp only at hp hok ⊢
  by_cases h0 : ret = 0
  · rw [if_pos h0]
    dsimp only
    by_cases hend : endpos = buf.length
    · rw [if_pos hend]
      refine ⟨?_, ?_⟩
      · show pkt2.content_type = pkt.content_type
        rw [hp.1, coap_parse_init_content_type]
      · show pkt2.observe_value = 4294967295
        rw [hp.2, coap_parse_init_observe]
    · rw [if_neg hend]
      refine ⟨?_, ?_⟩
      · show pkt2.content_type = pkt.content_type
        rw [hp.1, coap_parse_init_content_type]
      · show pkt2.observe_value = 4294967295
        rw [hp.2, coap_parse_init_observe]
  · rw [if_neg h0] at hok
    exact absurd hok h0

/-- Witness for C6 at the minimal option-free message `40 01 00 00` and a
pre-call struct with `content_type = 45` and `observe_value = 7`. -/
theorem c6_defaults_preserved_witness :
    (coap_parse demo_pkt [64, 1, 0, 0]).2.content_type = 45 ∧
    (coap_parse demo_pkt [64, 1, 0, 0]).2.observe_value = 4294967295 := by
  have h := c6_defaults_preserved demo_pkt [64, 1, 0, 0] (by decide) (by decide) (by decide)
  exact ⟨h.1, h.2⟩

/-- C6 counterexample to the claim as stated: the option-free message
`40 01 00 00` parses successfully (so it certainly has no Content-Format
option), yet with a pre-call `content_type = 45` the parsed packet's
content-format field is 45, not the claimed default 0. -/
theorem c6_content_format_counterexample :
    (coap_parse demo_pkt [64, 1, 0, 0]).1 = 0 ∧
    coap_option_numbers [64, 1, 0, 0] = [] ∧
    (coap_parse demo_pkt [64, 1, 0, 0]).2.content_type = 45 ∧
    (45 : Nat) ≠ 0 := by
  refine ⟨by decide, by decide, by decide, by decide⟩

/-- C7: `coap_blockwise_init` negotiates the block size as the minimum of the
client-requested Block2 size `2^(SZX+4)` and the configured maximum size
`2^COAP_BLOCKWISE_SZX_MAX` (so a request for a larger block than the
configured ceiling yields the ceiling), and sets
`start = NUM * block_size`, `end = start + block_size`, `cur = 0`. -/
theorem c7_blockwise_init_negotiation (szx_max : Nat) (buf : List Nat)
    (payload_pos : Nat) (options_pos : Option Nat) (r : Nat) (opt : coap_opt_t)
    (hfind : coap_find_option buf payload_pos options_pos COAP_OPT_BLOCK2 = some (r, opt))
    (_hlen : opt.len < 4) (_hszx : szx_max ≤ 10) :
    coap_blockwise_init szx_max buf payload_pos options_pos =
      { start_pos := (_decode_uint buf opt.val opt.len >>> COAP_BLOCKWISE_NUM_OFF) *
          min (2 ^ ((_decode_uint buf opt.val opt.len &&& COAP_BLOCKWISE_SZX_MASK) + 4))
            (2 ^ szx_max)
        end_pos := (_decode_uint buf opt.val opt.len >>> COAP_BLOCKWISE_NUM_OFF) *
          min (2 ^ ((_decode_uint buf opt.val opt.len &&& COAP_BLOCKWISE_SZX_MASK) + 4))
            (2 ^ szx_max) +
          min (2 ^ ((_decode_uint buf opt.val opt.len &&& COAP_BLOCKWISE_SZX_MASK) + 4))
            (2 ^ szx_max)
        cur_pos := 0 } := by
  have hmin : (2 : Nat) ^ (if szx_max > (_decode_uint buf opt.val opt.len &&&
        COAP_BLOCKWISE_SZX_MASK) + 4 then
        (_decode_uint buf opt.val opt.len &&& COAP_BLOCKWISE_SZX_MASK) + 4 else szx_max) =
      min (2 ^ ((_decode_uint buf opt.val opt.len &&& COAP_BLOCKWISE_SZX_MASK) + 4))
        (2 ^ szx_max) := by
    by_cases h : szx_max > (_decode_uint buf opt.val opt.len &&& COAP_BLOCKWISE_SZX_MASK) + 4
    · rw [if_pos h, Nat.min_eq_left (Nat.pow_le_pow_right (by norm_num) (by omega))]
    · rw [if_neg h, Nat.min_eq_right (Nat.pow_le_pow_right (by norm_num) (by omega))]
  simp only [coap_blockwise_init, hfind]
  rw [← hmin]
  simp [Nat.shiftLeft_eq]

/-- Witness for C7: Block2 option value `0x16` (NUM = 1, SZX = 6, requested
block size 1024) against a configured ceiling of `2^6 = 64` negotiates 64 and
selects the window `[64, 128)`. -/
theorem c7_blockwise_init_negotiation_witness :
    coap_blockwise_init 6 [209, 10, 22, 255] 3 (some 0) =
      { start_pos := 64, end_pos := 128, cur_pos := 0 } :=
  c7_blockwise_init_negotiation 6 [209, 10, 22, 255] 3 (some 0) 3
    ⟨23, 1, 2⟩ (by decide) (by decide) (by decide)

/-- C10: with no Block2 option in the request, `coap_blockwise_init`
initialises the cursor to the first block at the configured maximum size:
`start = 0`, `end = 2^COAP_BLOCKWISE_SZX_MAX`, `cur = 0`. -/
theorem c10_blockwise_init_default (szx_max : Nat) (buf : List Nat) (payload_pos : Nat)
    (options_pos : Option Nat)
    (hfind : coap_find_option buf payload_pos options_pos COAP_OPT_BLOCK2 = none) :
    coap_blockwise_init szx_max buf payload_pos options_pos =
      { start_pos := 0, end_pos := 2 ^ szx_max, cur_pos := 0 } := by
  simp only [coap_blockwise_init, hfind]
  rw [if_neg (lt_irrefl szx_max)]
  simp [Nat.shiftLeft_eq]

/-- Witness for C10 at an empty options region and `COAP_BLOCKWISE_SZX_MAX = 6`. -/
theorem c10_blockwise_init_default_witness :
    coap_blockwise_init 6 [] 0 none = { start_pos := 0, end_pos := 64, cur_pos := 0 } :=
  c10_blockwise_init_default 6 [] 0 none (by decide)

/-- A payload-marker byte fails `_parse_opt` (both nibbles are the reserved 15). -/
theorem _parse_opt_payload_marker (buf : List Nat) (pos : Nat)
    (hff : byteAt buf pos = 255) : _parse_opt buf pos = none := by
  unfold _parse_opt
  rw [hff]
  exact if_pos (Or.inl (by decide))

/-- Once the running number exceeds the target, the scan stops with none,
whatever the rest of the buffer holds. -/
theorem coap_find_loop_none_of_exceed (buf : List Nat) (p optnum fuel pos d : Nat)
    (opt : coap_opt_t) (res : Nat)
    (hparse : _parse_opt buf pos = some (opt, res)) (hp : pos < p)
    (hgt : optnum < (d + opt.delta) % 65536) :
    coap_find_loop buf p optnum (fuel + 1) pos d = none := by
  simp only [coap_find_loop]
  rw [if_neg (by omega), hparse]
  dsimp only
  rw [if_neg (by omega), if_neg (by omega)]

/-- A cursor at or past the payload start yields none. -/
theorem coap_find_loop_none_of_reached (buf : List Nat) (p optnum : Nat) :
    ∀ (fuel pos d : Nat), p ≤ pos → coap_find_loop buf p optnum fuel pos d = none := by
  intro fuel pos d hge
  cases fuel with
  | zero => rfl
  | succ n =>
    simp only [coap_find_loop]
    rw [if_pos hge]

/-- A payload-marker byte under the cursor yields none mid-scan. -/
theorem coap_find_loop_none_of_marker (buf : List Nat) (p optnum fuel pos d : Nat)
    (hff : byteAt buf pos = 255) :
    coap_find_loop buf p optnum (fuel + 1) pos d = none := by
  simp only [coap_find_loop]
  by_cases hge : pos ≥ p
  · rw [if_pos hge]
  · rw [if_neg hge, _parse_opt_payload_marker buf pos hff]

/-- C8: `coap_find_option` returns "not found" (1) as soon as the running
absolute option number exceeds the target before an exact match — regardless
of what follows in the buffer, so also when an option with the target number
appears later in a malformed non-monotone stream — and also when (2) the
cursor reaches the payload start (both mid-scan and at entry), or (3) a
payload-marker byte 0xFF is under the cursor (both at entry and mid-scan). -/
theorem c8_find_option_termination :
    (∀ (buf : List Nat) (p optnum fuel pos d : Nat) (opt : coap_opt_t) (res : Nat),
      _parse_opt buf pos = some (opt, res) → pos < p →
      optnum < (d + opt.delta) % 65536 →
      coap_find_loop buf p optnum (fuel + 1) pos d = none) ∧
    (∀ (buf : List Nat) (p optnum fuel pos d : Nat), p ≤ pos →
      coap_find_loop buf p optnum fuel pos d = none) ∧
    (∀ (buf : List Nat) (p optnum pos : Nat), p ≤ pos →
      coap_find_option buf p (some pos) optnum = none) ∧
    (∀ (buf : List Nat) (p optnum pos : Nat), byteAt buf pos = 255 →
      coap_find_option buf p (some pos) optnum = none) ∧
    (∀ (buf : List Nat) (p optnum fuel pos d : Nat), byteAt buf pos = 255 →
      coap_find_loop buf p optnum (fuel + 1) pos d = none) := by
  refine ⟨?_, ?_, ?_, ?_, ?_⟩
  · intro buf p optnum fuel pos d opt res hparse hp hgt
    exact coap_find_loop_none_of_exceed buf p optnum fuel pos d opt res hparse hp hgt
  · intro buf p optnum fuel pos d hge
    exact coap_find_loop_none_of_reached buf p optnum fuel pos d hge
  · intro buf p optnum pos hge
    unfold coap_find_option
    dsimp only
    by_cases hb : byteAt buf pos = 255
    · rw [if_pos hb]
    · rw [if_neg hb]
      exact coap_find_loop_none_of_reached buf p optnum (p + 1) pos 0 hge
  · intro buf p optnum pos hff
    unfold coap_find_option
    dsimp only
    rw [if_pos hff]
  · intro buf p optnum fuel pos d hff
    exact coap_find_loop_none_of_marker buf p optnum fuel pos d hff

/-- Witness for C8: concrete instances of all five clauses.  `[176]` is a
single option with delta 11, so scanning for option number 5 passes it. -/
theorem c8_find_option_termination_witness :
    coap_find_loop [176] 1 5 1 0 0 = none ∧
    coap_find_loop [] 0 5 3 0 0 = none ∧
    coap_find_option [176] 0 (some 0) 11 = none ∧
    coap_find_option [255] 5 (some 0) 11 = none ∧
    coap_find_loop [176, 255] 2 11 1 1 0 = none :=
  ⟨c8_find_option_termination.1 [176] 1 5 0 0 0 ⟨11, 0, 1⟩ 1 (by decide) (by decide) (by decide),
    c8_find_option_termination.2.1 [] 0 5 3 0 0 (by decide),
    c8_find_option_termination.2.2.1 [176] 0 11 0 (by decide),
    c8_find_option_termination.2.2.2.1 [255] 5 11 0 (by decide),
    c8_find_option_termination.2.2.2.2 [176, 255] 2 11 0 1 0 (by decide)⟩

/-- Taking as many elements as the takeWhile prefix recovers the prefix. -/
theorem take_length_takeWhile (q : Nat → Bool) :
    ∀ (l : List Nat), l.take (l.takeWhile q).length = l.takeWhile q := by
  intro l
  induction l with
  | nil => rfl
  | cons a as ih =>
    rw [List.takeWhile_cons]
    by_cases h : q a
    · rw [if_pos h, List.length_cons, List.take_succ_cons, ih]
    · rw [if_neg h]
      rfl

/-- `dropWhile` is `drop` by the takeWhile-prefix length. -/
theorem dropWhile_eq_drop_length_takeWhile (q : Nat → Bool) :
    ∀ (l : List Nat), l.dropWhile q = l.drop (l.takeWhile q).length := by
  intro l
  induction l with
  | nil => rfl
  | cons a as ih =>
    rw [List.takeWhile_cons, List.dropWhile_cons]
    by_cases h : q a
    · rw [if_pos h, if_pos h, List.length_cons, List.drop_succ_cons, ih]
    · rw [if_neg h, if_neg h]
      rfl

/-- The element right after the takeWhile prefix fails the predicate. -/
theorem takeWhile_boundary (q : Nat → Bool) :
    ∀ (l : List Nat) (h : (l.takeWhile q).length < l.length),
      q (l.get ⟨(l.takeWhile q).length, h⟩) = false := by
  intro l
  induction l with
  | nil =>
    intro h
    exact absurd h (by simp)
  | cons a as ih =>
    intro h
    by_cases hq : q a
    · have hlen : ((a :: as).takeWhile q).length = (as.takeWhile q).length + 1 := by
        rw [List.takeWhile_cons, if_pos hq, List.length_cons]
      have h2 : (as.takeWhile q).length < as.length := by
        rw [hlen] at h
        simpa using h
      have := ih h2
      rw [show (a :: as).get ⟨((a :: as).takeWhile q).length, h⟩ =
          as.get ⟨(as.takeWhile q).length, h2⟩ from by
        simp only [hlen]
        rfl]
      exact this
    · have hlen : ((a :: as).takeWhile q).length = 0 := by
        rw [List.takeWhile_cons, if_neg hq]
        rfl
      rw [show (a :: as).get ⟨((a :: as).takeWhile q).length, h⟩ = a from by
        simp only [hlen]
        rfl]
      simpa using hq

/-- The inner scan of `coap_put_option_uri` stops exactly at the end of the
separator-free run starting at `p`: it returns the index of the break
character (the next separator, or the terminating NUL at `uri.length`) and
the budget left after consuming one unit per examined character. -/
theorem _uri_inner_spec (sep : Nat) (uri : List Nat) (_hsep : sep ≠ 0) (h0 : 0 ∉ uri) :
    ∀ (b p : Nat), p ≤ uri.length → uri.length - p < b →
    _uri_inner sep uri b p =
      (p + ((uri.drop p).takeWhile (fun c => c ≠ sep)).length,
       b - ((uri.drop p).takeWhile (fun c => c ≠ sep)).length - 1) := by
  intro b
  induction b with
  | zero =>
    intro p _ hb
    exact absurd hb (by omega)
  | succ n ih =>
    intro p hp hb
    by_cases hpl : p = uri.length
    · have hb0 : byteAt uri p = 0 := List.getD_eq_default _ _ (by omega)
      have hdrop : uri.drop p = [] := List.drop_eq_nil_of_le (by omega)
      simp only [_uri_inner]
      rw [if_pos (Or.inr hb0), hdrop]
      simp
    · have hplt : p < uri.length := by omega
      have hbyte : byteAt uri p = uri[p] := List.getD_eq_getElem _ _ hplt
      have hnz : uri[p] ≠ 0 := fun hc => h0 (hc ▸ List.getElem_mem hplt)
      have hdrop : uri.drop p = uri[p] :: uri.drop (p + 1) := List.drop_eq_getElem_cons hplt
      by_cases hs : uri[p] = sep
      · simp only [_uri_inner]
        rw [if_pos (Or.inl (by rw [hbyte, hs])), hdrop, List.takeWhile_cons,
          if_neg (by simp [hs])]
        simp
      · simp only [_uri_inner]
        rw [if_neg (by rw [hbyte]; tauto), ih (p + 1) (by omega) (by omega), hdrop,
          List.takeWhile_cons, if_pos (by simp [hs])]
        simp only [List.length_cons, Prod.mk.injEq]
        omega

/-- Skipping a leading separator leaves the segments unchanged. -/
theorem uri_segments_cons_sep (sep : Nat) (l : List Nat) :
    uri_segments sep (sep :: l) = uri_segments sep l := by
  rw [uri_segments]
  rw [if_pos rfl]

/-- A non-separator head starts a segment. -/
theorem uri_segments_cons_of_ne (sep a : Nat) (l : List Nat) (h : a ≠ sep) :
    uri_segments sep (a :: l) =
      (a :: l.takeWhile (fun c => c ≠ sep)) ::
        uri_segments sep (l.dropWhile (fun c => c ≠ sep)) := by
  rw [uri_segments]
  rw [if_neg h]

/-- The outer loop of `coap_put_option_uri` records exactly the non-empty
segments of the tail of the string after the skipped first character, the
first recorded call carrying the caller's `lastonum` and every later one the
already-written option number. -/
theorem coap_put_option_uri_loop_spec (sep optnum : Nat) (uri : List Nat)
    (h0 : 0 ∉ uri) (hsep : sep ≠ 0) :
    ∀ (fuel pos lastonum : Nat), pos ≤ uri.length → uri.length - pos < fuel →
    (coap_put_option_uri_loop sep optnum uri fuel (uri.length - pos) pos lastonum).map
        Prod.snd =
      uri_segments sep (uri.drop (pos + 1)) ∧
    (coap_put_option_uri_loop sep optnum uri fuel (uri.length - pos) pos lastonum).map
        Prod.fst =
      (if uri_segments sep (uri.drop (pos + 1)) = [] then []
       else lastonum ::
         List.replicate ((uri_segments sep (uri.drop (pos + 1))).length - 1) optnum) := by
  intro fuel
  induction fuel with
  | zero =>
    intro pos lastonum hp hf
    exact absurd hf (by omega)
  | succ n ih =>
    intro pos lastonum hp hf
    rcases hbud : uri.length - pos with _ | b
    · have hdrop : uri.drop (pos + 1) = [] := List.drop_eq_nil_of_le (by omega)
      rw [hdrop]
      simp [coap_put_option_uri_loop, uri_segments]
    · have hplt : pos < uri.length := by omega
      have hwspec := _uri_inner_spec sep uri hsep h0 (b + 1) (pos + 1) (by omega) (by omega)
      have hWle : ((uri.drop (pos + 1)).takeWhile (fun c => c ≠ sep)).length ≤
          uri.length - (pos + 1) := by
        have h1 : ((uri.drop (pos + 1)).takeWhile (fun c => decide (c ≠ sep))).length ≤
            (uri.drop (pos + 1)).length :=
          List.Sublist.length_le (List.takeWhile_sublist _)
        rw [List.length_drop] at h1
        exact h1
      simp only [coap_put_option_uri_loop]
      rw [hwspec]
      dsimp only
      have hidx : pos + 1 + ((uri.drop (pos + 1)).takeWhile (fun c => c ≠ sep)).length -
          (pos + 1) = ((uri.drop (pos + 1)).takeWhile (fun c => c ≠ sep)).length := by
        omega
      rw [hidx, take_length_takeWhile]
      by_cases hw0 : ((uri.drop (pos + 1)).takeWhile (fun c => c ≠ sep)).length = 0
      · have htw : (uri.drop (pos + 1)).takeWhile (fun c => c ≠ sep) = [] :=
          List.length_eq_zero.mp hw0
        rw [htw]
        rw [if_neg (show ¬((List.nil : List Nat).length ≠ 0) from by simp)]
        simp only [List.length_nil, Nat.add_zero, Nat.sub_zero, Nat.add_sub_cancel]
        have hb2 : uri.length - (pos + 1) = b := by omega
        have hseg : uri_segments sep (uri.drop (pos + 1)) =
            uri_segments sep (uri.drop (pos + 1 + 1)) := by
          by_cases hpe : pos + 1 < uri.length
          · have hd1 : uri.drop (pos + 1) = uri[pos + 1] :: uri.drop (pos + 1 + 1) :=
              List.drop_eq_getElem_cons hpe
            have hq : uri[pos + 1] = sep := by
              have h2 := htw
              rw [hd1, List.takeWhile_cons] at h2
              by_cases hqq : uri[pos + 1] = sep
              · exact hqq
              · have hcond : decide (uri[pos + 1] ≠ sep) = true := by simp [hqq]
                rw [if_pos hcond] at h2
                exact absurd h2 (by simp)
            rw [hd1, hq, uri_segments_cons_sep]
          · rw [List.drop_eq_nil_of_le (by omega), List.drop_eq_nil_of_le (by omega)]
        have hih := ih (pos + 1) lastonum (by omega) (by omega)
        rw [hb2] at hih
        refine ⟨?_, ?_⟩
        · rw [hseg]
          exact hih.1
        · rw [hseg]
          exact hih.2
      · have hple : pos + 1 < uri.length := by
          by_contra hc
          rw [List.drop_eq_nil_of_le (by omega)] at hw0
          exact hw0 rfl
        have hd1 : uri.drop (pos + 1) = uri[pos + 1] :: uri.drop (pos + 1 + 1) :=
          List.drop_eq_getElem_cons hple
        have ha : uri[pos + 1] ≠ sep := by
          by_contra hc
          rw [hd1, List.takeWhile_cons, if_neg (by simp [hc])] at hw0
          exact hw0 rfl
        have hdw : (uri.drop (pos + 1)).dropWhile (fun c => c ≠ sep) =
            uri.drop (pos + 1 + ((uri.drop (pos + 1)).takeWhile (fun c => c ≠ sep)).length) := by
          rw [dropWhile_eq_drop_length_takeWhile, List.drop_drop]
        have hsegs : uri_segments sep (uri.drop (pos + 1)) =
            ((uri.drop (pos + 1)).takeWhile (fun c => c ≠ sep)) ::
              uri_segments sep (uri.drop (pos + 1 +
                ((uri.drop (pos + 1)).takeWhile (fun c => c ≠ sep)).length)) := by
          conv_lhs => rw [hd1]
          rw [uri_segments_cons_of_ne sep _ _ ha]
          rw [← hdw]
          congr 1
          conv_rhs => rw [hd1]
          rw [List.takeWhile_cons, if_pos (by simp [ha])]
          rw [hd1, List.dropWhile_cons, if_pos (by simp [ha])]
        have hbridge : uri_segments sep (uri.drop (pos + 1 +
            ((uri.drop (pos + 1)).takeWhile (fun c => c ≠ sep)).length)) =
            uri_segments sep (uri.drop (pos + 1 +
              ((uri.drop (pos + 1)).takeWhile (fun c => c ≠ sep)).length + 1)) := by
          by_cases hj : pos + 1 + ((uri.drop (pos + 1)).takeWhile (fun c => c ≠ sep)).length <
              uri.length
          · have hb3 : ((uri.drop (pos + 1)).takeWhile (fun c => c ≠ sep)).length <
                (uri.drop (pos + 1)).length := by
              rw [List.length_drop]
              omega
            have hq := takeWhile_boundary (fun c => decide (c ≠ sep)) (uri.drop (pos + 1)) hb3
            rw [List.get_eq_getElem, List.getElem_drop] at hq
            have hsep2 : uri[pos + 1 + ((uri.drop (pos + 1)).takeWhile
                (fun c => c ≠ sep)).length] = sep := by
              simpa using hq
            rw [List.drop_eq_getElem_cons hj, hsep2, uri_segments_cons_sep]
          · rw [List.drop_eq_nil_of_le (by omega), List.drop_eq_nil_of_le (by omega)]
        have hbw : b + 1 - ((uri.drop (pos + 1)).takeWhile (fun c => c ≠ sep)).length - 1 =
            uri.length - (pos + 1 + ((uri.drop (pos + 1)).takeWhile (fun c => c ≠ sep)).length) := by
          omega
        rw [if_pos (by simpa using hw0), hbw]
        have hih := ih (pos + 1 + ((uri.drop (pos + 1)).takeWhile (fun c => c ≠ sep)).length)
          optnum (by omega) (by omega)
        refine ⟨?_, ?_⟩
        · rw [List.map_cons, hih.1, hsegs, hbridge]
        · have hlen1 : (((uri.drop (pos + 1)).takeWhile (fun c => c ≠ sep)) ::
              uri_segments sep (uri.drop (pos + 1 +
                ((uri.drop (pos + 1)).takeWhile (fun c => c ≠ sep)).length))).length - 1 =
              (uri_segments sep (uri.drop (pos + 1 +
                ((uri.drop (pos + 1)).takeWhile (fun c => c ≠ sep)).length))).length := by
            rw [List.length_cons]
            omega
          rw [List.map_cons, hsegs,
            if_neg (show ¬(((uri.drop (pos + 1)).takeWhile (fun c => c ≠ sep)) ::
              uri_segments sep (uri.drop (pos + 1 +
                ((uri.drop (pos + 1)).takeWhile (fun c => c ≠ sep)).length)) = []) from by simp),
            hlen1, hbridge, hih.2]
          congr 1
          rcases hcase : uri_segments sep (uri.drop (pos + 1 +
              ((uri.drop (pos + 1)).takeWhile (fun c => c ≠ sep)).length + 1)) with _ | ⟨sg, sgs⟩
          · rw [if_pos rfl]
            rfl
          · rw [if_neg (by simp), List.length_cons]
            rw [Nat.add_sub_cancel, List.replicate_succ]

/-- C9 (amended): `coap_put_option_uri` emits one option per non-empty
segment of the input with its FIRST character removed (the loop skips one
character before every scan, so the input is assumed to begin with the
separator, as CoAP paths and queries do); the first emitted option is chained
from the caller's last option number and all later ones use delta 0 (their
`lastonum` is the option number itself).  The C claim "one option per
non-empty segment of the input" holds only for inputs starting with the
separator. -/
theorem c9_put_option_uri_segments (optnum lastonum : Nat) (uri : List Nat)
    (h0 : 0 ∉ uri) :
    (coap_put_option_uri_calls (if optnum = COAP_OPT_URI_PATH then 47 else 38) optnum uri
        lastonum).map Prod.snd =
      uri_segments (if optnum = COAP_OPT_URI_PATH then 47 else 38) (uri.drop 1) ∧
    (coap_put_option_uri_calls (if optnum = COAP_OPT_URI_PATH then 47 else 38) optnum uri
        lastonum).map Prod.fst =
      (if uri_segments (if optnum = COAP_OPT_URI_PATH then 47 else 38) (uri.drop 1) = [] then []
       else lastonum ::
         List.replicate
           ((uri_segments (if optnum = COAP_OPT_URI_PATH then 47 else 38) (uri.drop 1)).length
             - 1) optnum) := by
  have hsep : (if optnum = COAP_OPT_URI_PATH then (47 : Nat) else 38) ≠ 0 := by
    split
    · decide
    · decide
  by_cases hlen : uri.length = 0
  · have huri : uri = [] := List.length_eq_zero.mp hlen
    subst huri
    simp [coap_put_option_uri_calls, uri_segments]
  · have hspec := coap_put_option_uri_loop_spec
      (if optnum = COAP_OPT_URI_PATH then 47 else 38) optnum uri h0 hsep
      (uri.length + 1) 0 lastonum (by omega) (by omega)
    rw [Nat.sub_zero] at hspec
    unfold coap_put_option_uri_calls
    rw [if_neg hlen]
    exact hspec

/-- Witness for C9 at the path string `/ab/c` (bytes `47 97 98 47 99`),
option number 11 (URI-Path) and caller `lastonum = 3`: two options with
values `ab` and `c`; the first call is chained from 3, the second from 11. -/
theorem c9_put_option_uri_segments_witness :
    (coap_put_option_uri_calls 47 11 [47, 97, 98, 47, 99] 3).map Prod.snd =
      [[97, 98], [99]] ∧
    (coap_put_option_uri_calls 47 11 [47, 97, 98, 47, 99] 3).map Prod.fst = [3, 11] := by
  have h := c9_put_option_uri_segments 11 3 [47, 97, 98, 47, 99] (by decide)
  have h2 : (if (11 : Nat) = COAP_OPT_URI_PATH then (47 : Nat) else 38) = 47 := rfl
  rw [h2] at h
  constructor
  · rw [h.1]
    simp [uri_segments]
  · rw [h.2]
    simp [uri_segments]

/-- C9 counterexample to the claim as stated: the input `a` (byte 97, no
leading separator) has the single non-empty segment `a`, but
`coap_put_option_uri` emits no option at all (the loop unconditionally skips
the first character). -/
theorem c9_put_option_uri_counterexample :
    coap_put_option_uri 0 [97] 11 = [] ∧
    coap_put_option_uri_calls 47 11 [97] 0 = [] ∧
    uri_segments 47 [97] = [[97]] := by
  refine ⟨by decide, by decide, by simp [uri_segments]⟩
